import Mathlib

/-!
Verification development for the ResumeFit Pro response-parsing and
report-assembly pipeline (src/app1.py).

The program text is shallowly embedded over `List Char`.  Unicode-specific
behaviour of the Python regex module (non-ASCII decimal digits, non-ASCII
whitespace) is outside the modelled fragment: digits are the ASCII digits
0-9 and whitespace is the ASCII whitespace set, which is what the claims
and the specification speak about.  Python string literals inside the
skills payload are modelled without backslash escapes, and the evaluator
applied to the captured skills payload is modelled on the fragment of
Python expressions relevant here: flat dict displays whose keys are quoted
strings and whose values are integer sums or quoted strings, with integer
literals in Python 3 syntax (no leading zeros outside all-zero runs).  A
parallel loose parser delimits the payloads that differ from this fragment
only by a leading-zero literal, which Python rejects with a SyntaxError;
payloads outside both are mapped to an explicit unmodelled outcome rather
than guessed at.
-/

namespace ResumeFit

/-- A decimal digit character mapped from its value, used to render match
percentages the way Python str would. -/
def digitChar (d : Nat) : Char :=
  List.getD ['0', '1', '2', '3', '4', '5', '6', '7', '8', '9'] d '0'

/-- Value of a list of ASCII digit characters, as Python int() computes it
for a decimal string. -/
def digitsToNat (ds : List Char) : Nat :=
  List.foldl (fun a c => a * 10 + (c.toNat - 48)) 0 ds

/-- Fuelled decimal rendering helper (fuel bounds the number of digits). -/
def natToDigitsAux : Nat → Nat → List Char
  | 0, _ => []
  | fuel + 1, n =>
    if n < 10 then [digitChar n]
    else natToDigitsAux fuel (n / 10) ++ [digitChar (n % 10)]

/-- Decimal rendering of a natural number, as Python str(n) produces it. -/
def natToDigits (n : Nat) : List Char := natToDigitsAux (n + 1) n

/-- One attempt of the regex engine at the current position: k digits
followed by a percent sign, capturing the digit group.  Mirrors one
backtracking step of matching (\d{1,3})% at a fixed start. -/
def tryLen (k : Nat) (l : List Char) : Option (List Char) :=
  if (l.take k).length = k ∧ (l.take k).all Char.isDigit = true ∧
      (l.drop k).head? = some '%' then
    some (l.take k)
  else none

/-- Greedy attempt at the current position: three digits first, then two,
then one, exactly as (\d{1,3})% backtracks. -/
def matchAt (l : List Char) : Option (List Char) :=
  match tryLen 3 l with
  | some ds => some ds
  | none =>
    match tryLen 2 l with
    | some ds => some ds
    | none => tryLen 1 l

/-- Left-to-right scan of re.search for the pattern (\d{1,3})%, returning
the captured digit group of the leftmost match. -/
def findPercent : List Char → Option (List Char)
  | [] => none
  | c :: cs =>
    match matchAt (c :: cs) with
    | some ds => some ds
    | none => findPercent cs

/-- Embedding of extract_match_percentage (src/app1.py lines 74-78):
search for (\d{1,3})%, parse the digit group as an integer and clamp it
to 100; None when there is no match. -/
def extract_match_percentage (text : List Char) : Option Nat :=
  (findPercent text).map (fun ds => min (digitsToNat ds) 100)

/-- Specification-side predicate: the text has, at position j, a run of k
(one to three) decimal digits immediately followed by a percent sign. -/
def specMatchAt (cs : List Char) (j k : Nat) : Prop :=
  1 ≤ k ∧ k ≤ 3 ∧ ((cs.drop j).take k).length = k ∧
    ((cs.drop j).take k).all Char.isDigit = true ∧
    ((cs.drop j).drop k).head? = some '%'

instance (cs : List Char) (j k : Nat) : Decidable (specMatchAt cs j k) := by
  unfold specMatchAt
  infer_instance

/-- Python ASCII whitespace, the fragment of the \s class and of str.strip
relevant to the claims. -/
def isSpacePy (c : Char) : Bool :=
  (c == ' ') || (c == '\t') || (c == '\n') || (c == '\r') ||
    (c == Char.ofNat 11) || (c == Char.ofNat 12)

/-- Drop trailing whitespace, the right half of Python str.strip. -/
def trimEnd (l : List Char) : List Char :=
  (l.reverse.dropWhile isSpacePy).reverse

/-- Python str.strip over the modelled whitespace set. -/
def stripPy (l : List Char) : List Char :=
  trimEnd (l.dropWhile isSpacePy)

/-- The literal label of the cover-letter section. -/
def labelCL : List Char :=
  ['C', 'o', 'v', 'e', 'r', ' ', 'L', 'e', 't', 't', 'e', 'r', ':']

/-- The literal trailing marker of the ATS section. -/
def markerATS : List Char :=
  ['A', 'T', 'S', ' ', 'F', 'o', 'r', 'm', 'a', 't', 't', 'i', 'n', 'g',
   ' ', 'C', 'h', 'e', 'c', 'k', ':']

/-- The literal trailing marker of the interview-questions section. -/
def markerIQ : List Char :=
  ['I', 'n', 't', 'e', 'r', 'v', 'i', 'e', 'w', ' ', 'Q', 'u', 'e', 's',
   't', 'i', 'o', 'n', 's', ':']

/-- Index of the first position where lab occurs as a leading block of the
remaining text, as re.search locates a literal. -/
def findLabelIdx (lab : List Char) : List Char → Option Nat
  | [] => if lab.isPrefixOf ([] : List Char) = true then some 0 else none
  | c :: r =>
    if lab.isPrefixOf (c :: r) = true then some 0
    else (findLabelIdx lab r).map (fun i => i + 1)

/-- Number of characters the lazy group (.*?) consumes before the tail
alternation (?:ATS Formatting Check:|Interview Questions:|$) matches, under
re.DOTALL; the dollar also matches just before a newline that ends the
string. -/
def stopLen : List Char → Nat
  | [] => 0
  | c :: r =>
    if (markerATS.isPrefixOf (c :: r) || markerIQ.isPrefixOf (c :: r)) = true then 0
    else if c = '\n' ∧ r = [] then 0
    else stopLen r + 1

/-- Specification-side stop: characters up to the next occurrence of either
trailing marker, or to the end of the text. -/
def stopLenSpec : List Char → Nat
  | [] => 0
  | c :: r =>
    if (markerATS.isPrefixOf (c :: r) || markerIQ.isPrefixOf (c :: r)) = true then 0
    else stopLenSpec r + 1

/-- Embedding of the cover-letter extraction (src/app1.py lines 293-295):
re.search("Cover Letter:\s*(.*?)(?:ATS Formatting Check:|Interview
Questions:|$)", analysis, re.DOTALL) followed by .strip() of group 1. -/
def extract_cover_letter (text : List Char) : Option (List Char) :=
  match findLabelIdx labelCL text with
  | none => none
  | some i =>
    some (stripPy (((text.drop (i + labelCL.length)).dropWhile isSpacePy).take
      (stopLen ((text.drop (i + labelCL.length)).dropWhile isSpacePy))))

/-- Specification-side cover-letter extraction, transcribed from the claim:
the whitespace-trimmed content between the label and the next occurrence of
either trailing marker, or to the end of the text; absent when the label
does not occur. -/
def coverLetterSpec (text : List Char) : Option (List Char) :=
  match findLabelIdx labelCL text with
  | none => none
  | some i =>
    some (stripPy ((text.drop (i + labelCL.length)).take
      (stopLenSpec (text.drop (i + labelCL.length)))))

/-- The literal label of the skills block. -/
def labelSM : List Char :=
  ['S', 'k', 'i', 'l', 'l', 's', ' ', 'M', 'a', 't', 'c', 'h', ':']

/-- Opening brace character. -/
def lbrace : Char := Char.ofNat 123

/-- Closing brace character. -/
def rbrace : Char := Char.ofNat 125

/-- Single-quote character. -/
def squote : Char := Char.ofNat 39

/-- Double-quote character. -/
def dquote : Char := Char.ofNat 34

/-- Characters matched by the lazy .*? inside the skills pattern up to the
first closing brace; none if a newline or the end of the text intervenes,
because the pattern is compiled without re.DOTALL. -/
def braceBody : List Char → Option (List Char)
  | [] => none
  | c :: r =>
    if c = rbrace then some []
    else if c = '\n' then none
    else (braceBody r).map (fun b => c :: b)

/-- One attempt of re.search for "Skills Match:\s*({.*?})" at the current
position: the label, maximal whitespace, an opening brace, then the lazy
body up to the first closing brace on the same line. -/
def tryLabelAt (l : List Char) : Option (List Char) :=
  if labelSM.isPrefixOf l = true then
    match (l.drop labelSM.length).dropWhile isSpacePy with
    | c :: r =>
      if c = lbrace then (braceBody r).map (fun body => lbrace :: (body ++ [rbrace]))
      else none
    | [] => none
  else none

/-- Left-to-right scan of re.search for the skills pattern, returning the
captured group ({...}) of the leftmost position where the whole pattern
matches (src/app1.py line 277). -/
def skillsCapture : List Char → Option (List Char)
  | [] => none
  | c :: cs =>
    match tryLabelAt (c :: cs) with
    | some p => some p
    | none => skillsCapture cs

/-- A Python value produced by evaluating a literal in the modelled
fragment: an integer or a string. -/
inductive PyVal where
  | intV : Int → PyVal
  | strV : List Char → PyVal
deriving DecidableEq

/-- Leading-whitespace skip inside the payload. -/
def wsDrop (l : List Char) : List Char := l.dropWhile isSpacePy

/-- Parse a quoted Python string literal (single or double quotes, no
escapes), returning content and remaining input. -/
def parseStrLit (l : List Char) : Option (List Char × List Char) :=
  match l with
  | [] => none
  | q :: r =>
    if q = squote ∨ q = dquote then
      match r.dropWhile (fun c => !(c == q)) with
      | _ :: r2 => some (r.takeWhile (fun c => !(c == q)), r2)
      | [] => none
    else none

/-- Parse a nonempty run of decimal digits as a Python 3 decimal integer
literal: a run starting with the digit zero is a valid literal only when
it consists of zeros alone (007 and 070 are a SyntaxError in Python 3,
while 0, 00 and 700 are accepted). -/
def parseNatLit (l : List Char) : Option (Nat × List Char) :=
  match l.takeWhile Char.isDigit with
  | [] => none
  | ds =>
    if ds.head? = some '0' ∧ ds.all (fun c => c == '0') = false then none
    else some (digitsToNat ds, l.dropWhile Char.isDigit)

/-- Parse an integer literal with optional leading minus sign. -/
def parseIntLit (l : List Char) : Option (Int × List Char) :=
  match l with
  | [] => none
  | c :: r =>
    if c = '-' then (parseNatLit r).map (fun p => (-(p.1 : Int), p.2))
    else (parseNatLit (c :: r)).map (fun p => ((p.1 : Int), p.2))

/-- Continue an integer sum: while the next nonblank character is a plus
sign, consume it and add the following integer literal, as Python eval does
for an expression such as 1+1. -/
def parseIntSumGo : Nat → Int → List Char → Option (Int × List Char)
  | 0, _, _ => none
  | fuel + 1, acc, l =>
    match wsDrop l with
    | [] => some (acc, l)
    | c :: r =>
      if c = '+' then
        match parseIntLit (wsDrop r) with
        | some (v, rest) => parseIntSumGo fuel (acc + v) rest
        | none => none
      else some (acc, l)

/-- Parse an integer sum expression. -/
def parseIntSum (l : List Char) : Option (Int × List Char) :=
  match parseIntLit l with
  | some (v, r) => parseIntSumGo (r.length + 1) v r
  | none => none

/-- Value rule of the modelled evaluator: a string literal, or an integer
sum. -/
def parseValueEval (l : List Char) : Option (PyVal × List Char) :=
  match parseStrLit l with
  | some (s, r) => some (PyVal.strV s, r)
  | none => (parseIntSum l).map (fun p => (PyVal.intV p.1, p.2))

/-- Loose digit-run parse: any nonempty digit run, including runs with
leading zeros that Python rejects.  Used only to delimit the class of
payloads whose shape the evaluator fragment recognizes while Python
rejects an integer literal inside them. -/
def parseNatLitLoose (l : List Char) : Option (Nat × List Char) :=
  match l.takeWhile Char.isDigit with
  | [] => none
  | ds => some (digitsToNat ds, l.dropWhile Char.isDigit)

/-- Loose variant of parseIntLit over loose digit runs. -/
def parseIntLitLoose (l : List Char) : Option (Int × List Char) :=
  match l with
  | [] => none
  | c :: r =>
    if c = '-' then (parseNatLitLoose r).map (fun p => (-(p.1 : Int), p.2))
    else (parseNatLitLoose (c :: r)).map (fun p => ((p.1 : Int), p.2))

/-- Loose variant of parseIntSumGo. -/
def parseIntSumGoLoose : Nat → Int → List Char → Option (Int × List Char)
  | 0, _, _ => none
  | fuel + 1, acc, l =>
    match wsDrop l with
    | [] => some (acc, l)
    | c :: r =>
      if c = '+' then
        match parseIntLitLoose (wsDrop r) with
        | some (v, rest) => parseIntSumGoLoose fuel (acc + v) rest
        | none => none
      else some (acc, l)

/-- Loose variant of parseIntSum. -/
def parseIntSumLoose (l : List Char) : Option (Int × List Char) :=
  match parseIntLitLoose l with
  | some (v, r) => parseIntSumGoLoose (r.length + 1) v r
  | none => none

/-- Loose variant of the evaluator value rule. -/
def parseValueEvalLoose (l : List Char) : Option (PyVal × List Char) :=
  match parseStrLit l with
  | some (s, r) => some (PyVal.strV s, r)
  | none => (parseIntSumLoose l).map (fun p => (PyVal.intV p.1, p.2))

/-- Parse one key-value pair: quoted string key, colon, then a value by the
given value rule. -/
def parsePair {α : Type} (pv : List Char → Option (α × List Char)) (l : List Char) :
    Option ((List Char × α) × List Char) :=
  match parseStrLit l with
  | none => none
  | some (k, r) =>
    match wsDrop r with
    | [] => none
    | c :: r2 =>
      if c = ':' then (pv (wsDrop r2)).map (fun p => ((k, p.1), p.2))
      else none

/-- After one pair: a comma and a further pair (with Python's optional
trailing comma), or the closing brace which must end the payload. -/
def pairsAfter {α : Type} (pv : List Char → Option (α × List Char)) :
    Nat → List (List Char × α) → List Char → Option (List (List Char × α))
  | 0, _, _ => none
  | fuel + 1, acc, l =>
    match wsDrop l with
    | [] => none
    | c :: r =>
      if c = rbrace then (if wsDrop r = [] then some acc.reverse else none)
      else if c = ',' then
        match wsDrop r with
        | [] => none
        | c2 :: r2 =>
          if c2 = rbrace then (if wsDrop r2 = [] then some acc.reverse else none)
          else
            match parsePair pv (c2 :: r2) with
            | some (kv, rest) => pairsAfter pv fuel (kv :: acc) rest
            | none => none
      else none

/-- Parse a brace-delimited flat dict display whose value rule is given,
returning the key-value pairs in source order. -/
def parseDict {α : Type} (pv : List Char → Option (α × List Char)) (l : List Char) :
    Option (List (List Char × α)) :=
  match l with
  | [] => none
  | c :: r =>
    if c = lbrace then
      match wsDrop r with
      | [] => none
      | c2 :: r2 =>
        if c2 = rbrace then (if wsDrop r2 = [] then some [] else none)
        else
          match parsePair pv (c2 :: r2) with
          | some (kv, rest) => pairsAfter pv (rest.length + 1) [kv] rest
          | none => none
    else none

/-- Specification-side payload check, transcribed from the claim: a
syntactically valid flat mapping literal from quoted string keys to
Python 3 integer literals (so without leading zeros except in all-zero
runs), giving the pair sequence in source order. -/
def parseFlatStrIntLit (l : List Char) : Option (List (List Char × Int)) :=
  parseDict parseIntLit l

/-- The evaluator fragment on the captured payload: flat dict displays
with quoted string keys and integer-sum or string values in Python 3
literal syntax.  When this returns some pairs, Python eval returns exactly
the corresponding dict; when it returns none, the payload merely lies
outside this strict fragment, and nothing is implied about what the real
eval does there (it may raise, chart silently, or execute arbitrary code,
the subject of the safety claim). -/
def evalDictRaw (l : List Char) : Option (List (List Char × PyVal)) :=
  parseDict parseValueEval l

/-- Python dict construction update: a repeated key keeps its first
position and takes the last value, a fresh key is appended. -/
def upsert (m : List (List Char × PyVal)) (k : List Char) (v : PyVal) :
    List (List Char × PyVal) :=
  if m.any (fun p => p.1 == k) = true then
    m.map (fun p => if p.1 == k then (p.1, v) else p)
  else m ++ [(k, v)]

/-- Python dict construction from a pair sequence. -/
def dedupKeys (l : List (List Char × PyVal)) : List (List Char × PyVal) :=
  l.foldl (fun m p => upsert m p.1 p.2) []

/-- The modelled eval of the captured payload, producing the dict as an
ordered association list. -/
def evalDict (l : List Char) : Option (List (List Char × PyVal)) :=
  (evalDictRaw l).map dedupKeys

/-- Loose-syntax parse of the payload, differing from the strict fragment
only in accepting digit runs with leading zeros. -/
def evalDictLoose (l : List Char) : Option (List (List Char × PyVal)) :=
  parseDict parseValueEvalLoose l

/-- Payloads of the evaluator fragment shape in which some integer literal
carries leading zeros: the loose parse succeeds while the strict
Python-syntax parse fails.  The two parsers consume identical characters
wherever both succeed, so the first divergence is a strict digit-run
rejection, that is, a leading-zero decimal run in integer-literal
position; Python 3 rejects such a literal with a SyntaxError, so eval
raises on every payload of this class and the program takes its except
branch. -/
def syntaxErrorPayload (l : List Char) : Prop :=
  evalDictRaw l = none ∧ (evalDictLoose l).isSome = true

instance (l : List Char) : Decidable (syntaxErrorPayload l) := by
  unfold syntaxErrorPayload
  infer_instance

/-- Outcome of the skills-block extraction as modelled: no block found
(st.info path), a failed evaluation caught by the except handler
(st.error path, modelling MalformedSkillsBlock), a dict (radar chart
path), or a payload outside the modelled evaluator fragment, on which the
embedding takes no stance about which of the two preceding paths the real
program follows. -/
inductive SkillsResult where
  | absent
  | malformed
  | ok : List (List Char × PyVal) → SkillsResult
  | unmodelled
deriving DecidableEq

/-- Embedding of the skills-block handling (src/app1.py lines 277-287):
regex capture, then evaluation of the captured payload.  A payload of the
strict fragment evaluates to its dict; a fragment-shaped payload with a
leading-zero integer literal makes eval raise a SyntaxError, which the
except handler surfaces as the non-fatal error message; a payload outside
both is left unmodelled. -/
def extract_skill_score_map (text : List Char) : SkillsResult :=
  match skillsCapture text with
  | none => SkillsResult.absent
  | some payload =>
    match evalDict payload with
    | some m => SkillsResult.ok m
    | none =>
      if (evalDictLoose payload).isSome = true then SkillsResult.malformed
      else SkillsResult.unmodelled

/-- Embedding map from specification-side pairs to evaluated pairs. -/
def embedKV (p : List Char × Int) : List Char × PyVal := (p.1, PyVal.intV p.2)

/-- The bar chart object (src/app1.py lines 156-177): a single bar with the
score value and its percent annotation. -/
structure BarChart where
  value : Nat
  annotation : List Char
deriving DecidableEq

/-- Embedding of create_bar_chart. -/
def create_bar_chart (match_score : Nat) : BarChart :=
  ⟨match_score, natToDigits match_score ++ ['%']⟩

/-- The radar chart object (src/app1.py lines 111-153): one axis per skill
in source order, and the plotted values closed by repeating the first. -/
structure RadarChart where
  axes : List (List Char)
  plotted : List PyVal
deriving DecidableEq

/-- Embedding of create_radar_chart: None on an empty map, otherwise a
chart whose axes are the keys and whose value polygon is closed by
repeating the first value (values += values[:1]). -/
def create_radar_chart (skills_data : List (List Char × PyVal)) : Option RadarChart :=
  if skills_data.length = 0 then none
  else
    some ⟨skills_data.map Prod.fst,
      skills_data.map Prod.snd ++ (skills_data.map Prod.snd).take 1⟩

/-- Latin-1 encodable characters, the character set accepted by the PDF
output encoding step (.encode of the assembled document). -/
def latin1Ok (c : Char) : Bool := decide (c.toNat < 256)

/-- Python content.split of a text on newline characters. -/
def splitNl : List Char → List (List Char)
  | [] => [[]]
  | c :: r =>
    if c = '\n' then [] :: splitNl r
    else
      match splitNl r with
      | line :: rest => (c :: line) :: rest
      | [] => [[c]]

/-- Embedding of generate_pdf_report (src/app1.py lines 81-93): the
document is the sequence of input lines in order, one multi_cell per line;
a character outside the output encoding makes the try block fail and the
function return None. -/
def generate_pdf_report (content : List Char) : Option (List (List Char)) :=
  if content.all latin1Ok = true then some (splitNl content) else none

/-- Embedding of generate_cover_letter_pdf (src/app1.py lines 96-107),
which is line-for-line the same procedure as generate_pdf_report. -/
def generate_cover_letter_pdf (cover_letter_text : List Char) :
    Option (List (List Char)) :=
  if cover_letter_text.all latin1Ok = true then some (splitNl cover_letter_text)
  else none

/-- The outputs the presentation layer derives from one successfully
obtained analysis text (src/app1.py lines 256-318). -/
structure PipelineOutput where
  matchScore : Option Nat
  barChart : Option BarChart
  scoreWarning : Bool
  skills : SkillsResult
  radarChart : Option RadarChart
  coverLetterPdf : Option (List (List Char))
  reportPdf : Option (List (List Char))
deriving DecidableEq

/-- Embedding of the orchestration on a successful analysis: the match
score drives the score display, the warning and the bar chart; the skills
result drives the radar chart; the cover letter drives its own document;
the full report is generated from the entire analysis text. -/
def runPipeline (analysis : List Char) : PipelineOutput :=
  ⟨extract_match_percentage analysis,
   (extract_match_percentage analysis).map create_bar_chart,
   (extract_match_percentage analysis).isNone,
   extract_skill_score_map analysis,
   (match extract_skill_score_map analysis with
    | SkillsResult.ok m => create_radar_chart m
    | _ => none),
   (extract_cover_letter analysis).bind (fun t => generate_cover_letter_pdf t),
   generate_pdf_report analysis⟩

/-- Euro sign, a character outside the Latin-1 range. -/
def euroChar : Char := Char.ofNat 8364

/-- Demo analysis text with a well-formed skills block. -/
def skillsDemoPayload : List Char :=
  [lbrace, squote, 'p', squote, ':', ' ', '8', '0', ',', ' ',
   squote, 'q', squote, ':', ' ', '6', '0', rbrace]

/-- Demo analysis text wrapping the well-formed payload. -/
def skillsDemoText : List Char := labelSM ++ ' ' :: skillsDemoPayload

/-- Payload of the fragment shape whose integer literal carries leading
zeros, which Python 3 rejects with a SyntaxError. -/
def skillsZeroPayload : List Char :=
  [lbrace, squote, 'a', squote, ':', ' ', '0', '0', '7', rbrace]

/-- Analysis text wrapping the leading-zero payload. -/
def skillsZeroText : List Char := labelSM ++ ' ' :: skillsZeroPayload

/-- Payload that is not a flat literal yet evaluates: a dict display whose
value is the arithmetic expression 1+1. -/
def plusPayload : List Char :=
  [lbrace, squote, 'a', squote, ':', ' ', '1', '+', '1', rbrace]

/-- Analysis text wrapping the arithmetic payload. -/
def plusText : List Char := labelSM ++ ' ' :: plusPayload

/-- Payload taken from an adversarial analysis text: an arbitrary Python
expression that imports a module and runs a shell command. -/
def importPayload : List Char :=
  [lbrace] ++ ("__import__(".toList) ++ [squote] ++ ("os".toList) ++ [squote] ++
    (").system(".toList) ++ [squote] ++ ("echo hi".toList) ++ [squote] ++
    (")".toList) ++ [rbrace]

/-- Adversarial analysis text wrapping the import payload. -/
def importText : List Char := labelSM ++ ' ' :: importPayload

/-- Skills body whose payload has a line break before the closing brace. -/
def newlineTail : List Char :=
  [squote, 'a', squote, ':', '1', ',', '\n', squote, 'b', squote, ':', '2', rbrace]

/-- Analysis text whose skills payload spans two lines. -/
def newlineText : List Char := labelSM ++ ' ' :: lbrace :: newlineTail

end ResumeFit

namespace ResumeFit

lemma tryLen_eq_some {k : Nat} {l ds : List Char} :
    tryLen k l = some ds ↔
      ((l.take k).length = k ∧ (l.take k).all Char.isDigit = true ∧
        (l.drop k).head? = some '%') ∧ ds = l.take k := by
  unfold tryLen
  by_cases h : (l.take k).length = k ∧ (l.take k).all Char.isDigit = true ∧
      (l.drop k).head? = some '%'
  · rw [if_pos h]
    constructor
    · intro he
      injection he with he
      exact ⟨h, he.symm⟩
    · intro ⟨_, he⟩
      rw [he]
  · rw [if_neg h]
    constructor
    · intro he
      exact absurd he (by simp)
    · intro ⟨hh, _⟩
      exact absurd hh h

lemma specMatchAt_zero_iff {l : List Char} {k : Nat} :
    specMatchAt l 0 k ↔
      1 ≤ k ∧ k ≤ 3 ∧ (l.take k).length = k ∧ (l.take k).all Char.isDigit = true ∧
        (l.drop k).head? = some '%' := by
  unfold specMatchAt
  rw [List.drop_zero]

lemma specMatchAt_succ {c : Char} {cs : List Char} {j k : Nat} :
    specMatchAt (c :: cs) (j + 1) k ↔ specMatchAt cs j k := by
  unfold specMatchAt
  rw [List.drop_succ_cons]

lemma mem_take_of_head_drop {l : List Char} {k k2 : Nat} {c : Char}
    (hk : k < k2) (hh : (l.drop k).head? = some c)
    (hlen : (l.take k2).length = k2) : c ∈ l.take k2 := by
  induction l generalizing k k2 with
  | nil =>
    rw [List.drop_nil] at hh
    exact absurd hh (by simp)
  | cons a l ih =>
    cases k with
    | zero =>
      rw [List.drop_zero, List.head?_cons] at hh
      injection hh with hh
      cases k2 with
      | zero => omega
      | succ k2 =>
        rw [List.take_succ_cons]
        rw [← hh]
        exact List.mem_cons_self a _
    | succ k =>
      cases k2 with
      | zero => omega
      | succ k2 =>
        rw [List.drop_succ_cons] at hh
        rw [List.take_succ_cons] at hlen ⊢
        simp only [List.length_cons] at hlen
        exact List.mem_cons_of_mem a (ih (by omega) hh (by omega))

lemma tryLen_none_of_gt {l : List Char} {k k2 : Nat} (hk : k < k2)
    (hlen : (l.take k).length = k) (hpct : (l.drop k).head? = some '%') :
    tryLen k2 l = none := by
  unfold tryLen
  rw [if_neg]
  intro ⟨h1, h2, _⟩
  have hc : '%' ∈ l.take k2 := mem_take_of_head_drop hk hpct h1
  have := List.all_eq_true.mp h2 '%' hc
  exact absurd this (by decide)

lemma matchAt_eq_of_spec {l : List Char} {k : Nat} (h : specMatchAt l 0 k) :
    matchAt l = some (l.take k) := by
  obtain ⟨h1, h3, hlen, hdig, hpct⟩ := specMatchAt_zero_iff.mp h
  have hk : tryLen k l = some (l.take k) := by
    unfold tryLen
    rw [if_pos ⟨hlen, hdig, hpct⟩]
  interval_cases k
  · have h3n := tryLen_none_of_gt (l := l) (by omega : 1 < 3) hlen hpct
    have h2n := tryLen_none_of_gt (l := l) (by omega : 1 < 2) hlen hpct
    simp [matchAt, h3n, h2n, hk]
  · have h3n := tryLen_none_of_gt (l := l) (by omega : 2 < 3) hlen hpct
    simp [matchAt, h3n, hk]
  · simp [matchAt, hk]

lemma matchAt_spec_of_some {l ds : List Char} (h : matchAt l = some ds) :
    ∃ k, specMatchAt l 0 k ∧ ds = l.take k := by
  unfold matchAt at h
  cases h3 : tryLen 3 l with
  | some ds3 =>
    rw [h3] at h
    injection h with h
    obtain ⟨⟨ha, hb, hc⟩, hd⟩ := tryLen_eq_some.mp h3
    exact ⟨3, specMatchAt_zero_iff.mpr ⟨by omega, by omega, ha, hb, hc⟩, by rw [← h, hd]⟩
  | none =>
    rw [h3] at h
    cases h2 : tryLen 2 l with
    | some ds2 =>
      rw [h2] at h
      injection h with h
      obtain ⟨⟨ha, hb, hc⟩, hd⟩ := tryLen_eq_some.mp h2
      exact ⟨2, specMatchAt_zero_iff.mpr ⟨by omega, by omega, ha, hb, hc⟩, by rw [← h, hd]⟩
    | none =>
      rw [h2] at h
      obtain ⟨⟨ha, hb, hc⟩, hd⟩ := tryLen_eq_some.mp h
      exact ⟨1, specMatchAt_zero_iff.mpr ⟨by omega, by omega, ha, hb, hc⟩, hd⟩

lemma findPercent_eq_of_leftmost (cs : List Char) (i k : Nat)
    (h : specMatchAt cs i k) (hmin : ∀ j k2, specMatchAt cs j k2 → i ≤ j) :
    findPercent cs = some ((cs.drop i).take k) := by
  induction cs generalizing i with
  | nil =>
    exfalso
    obtain ⟨h1, _, hlen, _, _⟩ := h
    rw [List.drop_nil, List.take_nil] at hlen
    simp at hlen
    omega
  | cons c cs ih =>
    cases i with
    | zero =>
      have hm := matchAt_eq_of_spec ((specMatchAt_zero_iff (l := c :: cs)).mpr
        (specMatchAt_zero_iff.mp h))
      simp [findPercent, hm, List.drop_zero]
    | succ i =>
      have hnone : matchAt (c :: cs) = none := by
        cases hm : matchAt (c :: cs) with
        | none => rfl
        | some ds =>
          obtain ⟨k0, hs, _⟩ := matchAt_spec_of_some hm
          have := hmin 0 k0 hs
          omega
      have hshift : specMatchAt cs i k := specMatchAt_succ.mp h
      have hmin2 : ∀ j k2, specMatchAt cs j k2 → i ≤ j := by
        intro j k2 hj
        have := hmin (j + 1) k2 (specMatchAt_succ.mpr hj)
        omega
      have hrec := ih i hshift hmin2
      simp [findPercent, hnone, hrec, List.drop_succ_cons]

lemma findPercent_none (cs : List Char) (h : ∀ j k, ¬ specMatchAt cs j k) :
    findPercent cs = none := by
  induction cs with
  | nil => rfl
  | cons c cs ih =>
    have hnone : matchAt (c :: cs) = none := by
      cases hm : matchAt (c :: cs) with
      | none => rfl
      | some ds =>
        obtain ⟨k0, hs, _⟩ := matchAt_spec_of_some hm
        exact absurd hs (h 0 k0)
    have hrec : ∀ j k, ¬ specMatchAt cs j k := fun j k hj =>
      h (j + 1) k (specMatchAt_succ.mpr hj)
    simp [findPercent, hnone, ih hrec]

lemma specMatchAt_bounds {cs : List Char} {j k : Nat} (h : specMatchAt cs j k) :
    j < cs.length ∧ k < 4 := by
  obtain ⟨h1, h3, hlen, _, _⟩ := h
  refine ⟨?_, by omega⟩
  by_contra hj
  push_neg at hj
  rw [List.drop_eq_nil_of_le hj, List.take_nil] at hlen
  simp at hlen
  omega

lemma no_pct_no_match {cs : List Char} (h : '%' ∉ cs) :
    ∀ j k, ¬ specMatchAt cs j k := by
  intro j k hm
  obtain ⟨_, _, _, _, hpct⟩ := hm
  apply h
  apply List.mem_of_mem_drop (n := j)
  apply List.mem_of_mem_drop (n := k)
  cases hl : ((cs.drop j).drop k) with
  | nil => rw [hl] at hpct; exact absurd hpct (by simp)
  | cons a t =>
    rw [hl, List.head?_cons] at hpct
    injection hpct with hpct
    rw [hpct]
    exact List.mem_cons_self _ _

end ResumeFit

namespace ResumeFit

lemma natToDigits_facts : ∀ n, n ≤ 100 →
    (natToDigits n ≠ [] ∧ (natToDigits n).length ≤ 3 ∧
      (natToDigits n).all Char.isDigit = true ∧ digitsToNat (natToDigits n) = n) := by
  decide

lemma getLast?_drop_eq {P : List Char} {j : Nat} (h : P.drop j ≠ []) :
    (P.drop j).getLast? = P.getLast? := by
  induction P generalizing j with
  | nil => rw [List.drop_nil] at h; exact absurd rfl h
  | cons a P ih =>
    cases j with
    | zero => rfl
    | succ j =>
      rw [List.drop_succ_cons] at h ⊢
      rw [ih h]
      cases P with
      | nil => rw [List.drop_nil] at h; exact absurd rfl h
      | cons b t => rw [List.getLast?_cons_cons]

lemma getLast?_is_mem {l : List Char} {d : Char} (h : l.getLast? = some d) : d ∈ l := by
  induction l with
  | nil => exact absurd h (by simp)
  | cons a t ih =>
    cases t with
    | nil =>
      rw [List.getLast?_singleton] at h
      injection h with h
      rw [← h]
      exact List.mem_cons_self _ _
    | cons b t2 =>
      rw [List.getLast?_cons_cons] at h
      exact List.mem_cons_of_mem a (ih h)

lemma no_match_before {P X : List Char}
    (hP : ∀ j k, ¬ specMatchAt P j k)
    (hlast : ∀ d, P.getLast? = some d → d.isDigit = false)
    (j k2 : Nat) (hj : j < P.length) : ¬ specMatchAt (P ++ X) j k2 := by
  intro hm
  obtain ⟨hk1, hk3, hlen, hdig, hpct⟩ := hm
  have hd : (P ++ X).drop j = P.drop j ++ X := by
    rw [List.drop_append_eq_append_drop, Nat.sub_eq_zero_of_le (le_of_lt hj),
      List.drop_zero]
  rw [hd] at hlen hdig hpct
  have hQlen : (P.drop j).length = P.length - j := List.length_drop j P
  by_cases hcase : k2 < (P.drop j).length
  · apply hP j k2
    rw [List.take_append_eq_append_take, Nat.sub_eq_zero_of_le (le_of_lt hcase),
      List.take_zero, List.append_nil] at hlen hdig
    rw [List.drop_append_eq_append_drop, Nat.sub_eq_zero_of_le (le_of_lt hcase),
      List.drop_zero] at hpct
    refine ⟨hk1, hk3, hlen, hdig, ?_⟩
    have hne : (P.drop j).drop k2 ≠ [] := by
      intro hnil
      have := congrArg List.length hnil
      rw [List.length_drop] at this
      simp at this
      omega
    cases hdd : (P.drop j).drop k2 with
    | nil => exact absurd hdd hne
    | cons e t =>
      rw [hdd, List.cons_append, List.head?_cons] at hpct
      rw [List.head?_cons]
      exact hpct
  · push_neg at hcase
    have hQne : P.drop j ≠ [] := by
      intro hnil
      have := congrArg List.length hnil
      rw [List.length_drop] at this
      simp at this
      omega
    have hQdig : (P.drop j).all Char.isDigit = true := by
      rw [List.take_append_eq_append_take, List.take_of_length_le hcase,
        List.all_append, Bool.and_eq_true] at hdig
      exact hdig.1
    obtain ⟨d, hdlast⟩ : ∃ d, (P.drop j).getLast? = some d := by
      cases hgl : (P.drop j).getLast? with
      | none => exact absurd (List.getLast?_eq_none_iff.mp hgl) hQne
      | some d => exact ⟨d, rfl⟩
    have hdP : P.getLast? = some d := by
      rw [← getLast?_drop_eq hQne]
      exact hdlast
    have hdd : d.isDigit = true := List.all_eq_true.mp hQdig d (getLast?_is_mem hdlast)
    rw [hlast d hdP] at hdd
    exact absurd hdd (by decide)

lemma match_at_boundary (P S D : List Char) (hne : D ≠ [])
    (hlen3 : D.length ≤ 3) (hdig : D.all Char.isDigit = true) :
    specMatchAt (P ++ (D ++ '%' :: S)) P.length D.length := by
  have hdrop : (P ++ (D ++ '%' :: S)).drop P.length = D ++ '%' :: S := by
    rw [List.drop_append_eq_append_drop, Nat.sub_self, List.drop_zero,
      List.drop_length, List.nil_append]
  have htake : (D ++ '%' :: S).take D.length = D := by
    rw [List.take_append_eq_append_take, Nat.sub_self, List.take_zero,
      List.append_nil, List.take_length]
  refine ⟨?_, hlen3, ?_, ?_, ?_⟩
  · cases D with
    | nil => exact absurd rfl hne
    | cons _ _ => simp
  · rw [hdrop, htake]
  · rw [hdrop, htake]
    exact hdig
  · rw [hdrop, List.drop_append_eq_append_drop, Nat.sub_self, List.drop_length,
      List.nil_append, List.drop_zero, List.head?_cons]

end ResumeFit

namespace ResumeFit

/-- C1: for every input text with a one-to-three-digit run immediately
followed by a percent sign, extract_match_percentage returns the numeric
value of the leftmost such match, parsed as an integer and clamped to at
most 100. -/
theorem extract_match_percentage_leftmost (text : List Char) (i k : Nat)
    (h : specMatchAt text i k)
    (hmin : ∀ j k2, specMatchAt text j k2 → i ≤ j) :
    extract_match_percentage text =
      some (min (digitsToNat ((text.drop i).take k)) 100) := by
  unfold extract_match_percentage
  rw [findPercent_eq_of_leftmost text i k h hmin]
  rfl

/-- Witness for C1 at a concrete text whose leftmost match is 250, clamped
to 100. -/
theorem extract_match_percentage_leftmost_witness :
    extract_match_percentage ("250% off".toList) = some 100 := by
  have h := extract_match_percentage_leftmost ("250% off".toList) 0 3
    (by decide) (fun j k2 _ => Nat.zero_le j)
  exact h.trans (by decide)

/-- C6: for every text with no digits-followed-by-percent substring,
extract_match_percentage returns none rather than an error. -/
theorem extract_match_percentage_absent (text : List Char)
    (h : ∀ j k, ¬ specMatchAt text j k) :
    extract_match_percentage text = none := by
  unfold extract_match_percentage
  rw [findPercent_none text h]
  rfl

/-- Witness for C6 at a concrete text that contains digits and a percent
sign, but no digit run immediately followed by a percent sign. -/
theorem extract_match_percentage_absent_witness :
    extract_match_percentage ("95 percent %".toList) = none := by
  apply extract_match_percentage_absent
  intro j k hm
  have hb := specMatchAt_bounds hm
  have hall : ∀ j2 < 12, ∀ k2 < 4, ¬ specMatchAt ("95 percent %".toList) j2 k2 := by
    decide
  exact hall j (by simpa using hb.1) k hb.2 hm

/-- C5 counterexample: embedding the rendering of 0 between the prefix "1"
and the suffix "" yields the text 10 percent, from which the code extracts
10, not 0; so round-tripping fails for arbitrary surrounding strings. -/
theorem embed_roundtrip_counterexample :
    extract_match_percentage (("1".toList) ++ (natToDigits 0 ++ '%' :: ("".toList))) =
        some 10 ∧
      extract_match_percentage (("1".toList) ++ (natToDigits 0 ++ '%' :: ("".toList))) ≠
        some 0 := by
  constructor
  · decide
  · decide

/-- C5 as amended: for every n in [0,100], embedding the decimal rendering
of n directly followed by a percent sign between a prefix that contains no
digits-followed-by-percent substring and does not end with a digit, and an
arbitrary suffix, extract_match_percentage returns exactly n. -/
theorem embed_roundtrip_amended (n : Nat) (P S : List Char) (hn : n ≤ 100)
    (hP : ∀ j k, ¬ specMatchAt P j k)
    (hlast : ∀ d, P.getLast? = some d → d.isDigit = false) :
    extract_match_percentage (P ++ (natToDigits n ++ '%' :: S)) = some n := by
  obtain ⟨hne, hlen3, hdig, hval⟩ := natToDigits_facts n hn
  have hmatch := match_at_boundary P S (natToDigits n) hne hlen3 hdig
  have hmin : ∀ j k2, specMatchAt (P ++ (natToDigits n ++ '%' :: S)) j k2 →
      P.length ≤ j := by
    intro j k2 hjk
    by_contra hlt
    push_neg at hlt
    exact no_match_before hP hlast j k2 hlt hjk
  have hrun := findPercent_eq_of_leftmost _ P.length (natToDigits n).length
    hmatch hmin
  unfold extract_match_percentage
  rw [hrun]
  have hdrop : (P ++ (natToDigits n ++ '%' :: S)).drop P.length =
      natToDigits n ++ '%' :: S := by
    rw [List.drop_append_eq_append_drop, Nat.sub_self, List.drop_zero,
      List.drop_length, List.nil_append]
  have htake : (natToDigits n ++ '%' :: S).take (natToDigits n).length =
      natToDigits n := by
    rw [List.take_append_eq_append_take, Nat.sub_self, List.take_zero,
      List.append_nil, List.take_length]
  rw [hdrop, htake]
  simp [hval, Nat.min_eq_left hn]

/-- Witness for the amended C5 at n = 97 with a realistic prefix and
suffix. -/
theorem embed_roundtrip_amended_witness :
    extract_match_percentage (("Match score: ".toList) ++ (natToDigits 97 ++
      '%' :: (" overall".toList))) = some 97 := by
  apply embed_roundtrip_amended 97 ("Match score: ".toList) (" overall".toList)
    (by omega)
  · intro j k hm
    have hb := specMatchAt_bounds hm
    have hall : ∀ j2 < 13, ∀ k2 < 4, ¬ specMatchAt ("Match score: ".toList) j2 k2 := by
      decide
    exact hall j (by simpa using hb.1) k hb.2 hm
  · intro d hd
    have h2 : ("Match score: ".toList).getLast? = some ' ' := by decide
    rw [h2] at hd
    injection hd with hd
    rw [← hd]
    decide

end ResumeFit

namespace ResumeFit

lemma markerATS_head {c : Char} {r : List Char}
    (h : markerATS.isPrefixOf (c :: r) = true) : c = 'A' := by
  unfold markerATS at h
  simp [List.isPrefixOf] at h
  exact h.1.symm

lemma markerIQ_head {c : Char} {r : List Char}
    (h : markerIQ.isPrefixOf (c :: r) = true) : c = 'I' := by
  unfold markerIQ at h
  simp [List.isPrefixOf] at h
  exact h.1.symm

lemma markers_not_at_ws {c : Char} {r : List Char} (hws : isSpacePy c = true) :
    (markerATS.isPrefixOf (c :: r) || markerIQ.isPrefixOf (c :: r)) = false := by
  cases hA : markerATS.isPrefixOf (c :: r) with
  | true =>
    rw [markerATS_head hA] at hws
    exact absurd hws (by decide)
  | false =>
    cases hI : markerIQ.isPrefixOf (c :: r) with
    | true =>
      rw [markerIQ_head hI] at hws
      exact absurd hws (by decide)
    | false => rfl

lemma stopSpec_strip_dropWhile (rest : List Char) :
    stripPy (rest.take (stopLenSpec rest)) =
      stripPy ((rest.dropWhile isSpacePy).take
        (stopLenSpec (rest.dropWhile isSpacePy))) := by
  induction rest with
  | nil => rfl
  | cons c r ih =>
    by_cases hws : isSpacePy c = true
    · have hmk := markers_not_at_ws (r := r) hws
      have h1 : stopLenSpec (c :: r) = stopLenSpec r + 1 := by
        simp [stopLenSpec, hmk]
      have h2 : (c :: r).dropWhile isSpacePy = r.dropWhile isSpacePy := by
        simp [List.dropWhile_cons, hws]
      rw [h1, h2, List.take_succ_cons]
      have h3 : stripPy (c :: r.take (stopLenSpec r)) =
          stripPy (r.take (stopLenSpec r)) := by
        simp [stripPy, List.dropWhile_cons, hws]
      rw [h3]
      exact ih
    · have h2 : (c :: r).dropWhile isSpacePy = c :: r := by
        simp [List.dropWhile_cons, hws]
      rw [h2]

lemma trimEnd_append_nl (y : List Char) : trimEnd (y ++ ['\n']) = trimEnd y := by
  unfold trimEnd
  rw [List.reverse_append]
  simp [List.singleton_append, List.dropWhile_cons,
    show isSpacePy '\n' = true from by decide]

lemma strip_append_nl (x : List Char) : stripPy (x ++ ['\n']) = stripPy x := by
  induction x with
  | nil => decide
  | cons c r ih =>
    by_cases hws : isSpacePy c = true
    · rw [List.cons_append]
      simp only [stripPy, List.dropWhile_cons, hws, if_pos]
      simpa [stripPy] using ih
    · rw [List.cons_append]
      simp only [stripPy, List.dropWhile_cons, hws]
      simp only [Bool.false_eq_true, if_false]
      rw [← List.cons_append]
      exact trimEnd_append_nl (c :: r)

lemma take_stop_cases (w : List Char) :
    w.take (stopLenSpec w) = w.take (stopLen w) ∨
      w.take (stopLenSpec w) = w.take (stopLen w) ++ ['\n'] := by
  induction w with
  | nil => left; rfl
  | cons c r ih =>
    by_cases hmk : (markerATS.isPrefixOf (c :: r) || markerIQ.isPrefixOf (c :: r)) = true
    · left
      have h1 : stopLenSpec (c :: r) = 0 := by simp [stopLenSpec, hmk]
      have h2 : stopLen (c :: r) = 0 := by simp [stopLen, hmk]
      rw [h1, h2]
    · have hmkf : (markerATS.isPrefixOf (c :: r) || markerIQ.isPrefixOf (c :: r)) = false := by
        cases hx : (markerATS.isPrefixOf (c :: r) || markerIQ.isPrefixOf (c :: r)) with
        | true => exact absurd hx hmk
        | false => rfl
      by_cases hnl : c = '\n' ∧ r = []
      · right
        obtain ⟨hc, hr⟩ := hnl
        subst hc
        subst hr
        decide
      · have h1 : stopLenSpec (c :: r) = stopLenSpec r + 1 := by
          simp [stopLenSpec, hmkf]
        have h2 : stopLen (c :: r) = stopLen r + 1 := by
          simp [stopLen, hmkf, hnl]
        rw [h1, h2, List.take_succ_cons, List.take_succ_cons]
        rcases ih with h | h
        · left; rw [h]
        · right; rw [h, List.cons_append]

/-- C4: the cover-letter extraction agrees, on every text, with the
specification-side description: trimmed content between the label and the
next trailing marker or the end of the text, and absent when the label is
missing. -/
theorem extract_cover_letter_spec_eq (text : List Char) :
    extract_cover_letter text = coverLetterSpec text := by
  cases h : findLabelIdx labelCL text with
  | none =>
    unfold extract_cover_letter coverLetterSpec
    simp only [h]
  | some i =>
    unfold extract_cover_letter coverLetterSpec
    simp only [h]
    refine congrArg some ?_
    rw [stopSpec_strip_dropWhile (text.drop (i + labelCL.length))]
    rcases take_stop_cases ((text.drop (i + labelCL.length)).dropWhile isSpacePy)
      with h2 | h2
    · rw [h2]
    · rw [h2, strip_append_nl]

end ResumeFit

namespace ResumeFit

lemma label_prefix_lt {text : List Char} {j : Nat}
    (h : labelSM.isPrefixOf (text.drop j) = true) : j < text.length := by
  by_contra hge
  push_neg at hge
  rw [List.drop_eq_nil_of_le hge] at h
  exact absurd h (by decide)

lemma skillsCapture_eq_none (cs : List Char)
    (h : ∀ j, tryLabelAt (cs.drop j) = none) : skillsCapture cs = none := by
  induction cs with
  | nil => rfl
  | cons c cs ih =>
    have h0 := h 0
    rw [List.drop_zero] at h0
    have hrec : ∀ j, tryLabelAt (cs.drop j) = none := fun j => by
      have := h (j + 1)
      rwa [List.drop_succ_cons] at this
    simp [skillsCapture, h0, ih hrec]

lemma braceBody_none_of_nl {r : List Char}
    (h : '\n' ∈ r.takeWhile (fun c => !(c == rbrace))) : braceBody r = none := by
  induction r with
  | nil => exact absurd h (by simp)
  | cons c r ih =>
    by_cases hc : c = rbrace
    · rw [List.takeWhile_cons, if_neg (by simp [hc])] at h
      exact absurd h (by simp)
    · rw [List.takeWhile_cons, if_pos (by simp [hc])] at h
      by_cases hcn : c = '\n'
      · unfold braceBody
        rw [if_neg hc, if_pos hcn]
      · have hmem : '\n' ∈ r.takeWhile (fun c => !(c == rbrace)) := by
          cases List.mem_cons.mp h with
          | inl he => exact absurd he.symm hcn
          | inr hm => exact hm
        unfold braceBody
        rw [if_neg hc, if_neg hcn, ih hmem]
        rfl

/-- C10 (implicit): the skills pattern is compiled without DOTALL, so when
the sole skills block has a payload with a line break before its closing
brace, the extraction treats the block as absent, producing neither a
skills map nor a malformed-block error, even though a brace-delimited
payload is present. -/
theorem skills_newline_block_absent (text : List Char) (i : Nat) (r : List Char)
    (hlab : labelSM.isPrefixOf (text.drop i) = true)
    (huniq : ∀ j, labelSM.isPrefixOf (text.drop j) = true → j = i)
    (hbody : (text.drop (i + labelSM.length)).dropWhile isSpacePy = lbrace :: r)
    (hclose : rbrace ∈ r)
    (hnl : '\n' ∈ r.takeWhile (fun c => !(c == rbrace))) :
    extract_skill_score_map text = SkillsResult.absent := by
  have hall : ∀ j, tryLabelAt (text.drop j) = none := by
    intro j
    by_cases hp : labelSM.isPrefixOf (text.drop j) = true
    · have hj := huniq j hp
      subst hj
      unfold tryLabelAt
      rw [if_pos hp]
      simp [List.drop_drop, hbody, braceBody_none_of_nl hnl]
    · unfold tryLabelAt
      rw [if_neg hp]
  have hnone := skillsCapture_eq_none text hall
  unfold extract_skill_score_map
  rw [hnone]

/-- Witness for C10 at a concrete two-line skills block. -/
theorem skills_newline_block_absent_witness :
    extract_skill_score_map newlineText = SkillsResult.absent := by
  apply skills_newline_block_absent newlineText 0 newlineTail
  · decide
  · intro j hp
    have hb := label_prefix_lt hp
    have hall : ∀ j2 < 28, labelSM.isPrefixOf (newlineText.drop j2) = true → j2 = 0 := by
      decide
    exact hall j (by simpa using hb) hp
  · decide
  · decide
  · decide

end ResumeFit

namespace ResumeFit

lemma parseStrLit_none_of_intLit {l : List Char} {v : Int} {r : List Char}
    (h : parseIntLit l = some (v, r)) : parseStrLit l = none := by
  cases l with
  | nil => exact absurd h (by simp [parseIntLit])
  | cons c r0 =>
    have hcd : c = '-' ∨ Char.isDigit c = true := by
      by_cases hc : c = '-'
      · exact Or.inl hc
      · right
        simp only [parseIntLit] at h
        rw [if_neg hc] at h
        cases hn : parseNatLit (c :: r0) with
        | none => rw [hn] at h; exact absurd h (by simp)
        | some p =>
          by_cases hd : Char.isDigit c = true
          · exact hd
          · simp [parseNatLit, List.takeWhile_cons, hd] at hn
    have hq : ¬ (c = squote ∨ c = dquote) := by
      intro hq
      rcases hcd with hc | hd
      · rcases hq with h1 | h1 <;> (rw [h1] at hc; exact absurd hc (by decide))
      · rcases hq with h1 | h1 <;> (rw [h1] at hd; exact absurd hd (by decide))
    simp only [parseStrLit]
    rw [if_neg hq]

lemma parseValueEval_int {l : List Char} {v : Int} {r : List Char}
    (hiv : parseIntLit l = some (v, r))
    (hnext : ∀ c r2, wsDrop r = c :: r2 → c ≠ '+') :
    parseValueEval l = some (PyVal.intV v, r) := by
  have hs := parseStrLit_none_of_intLit hiv
  simp only [parseValueEval, hs]
  simp only [parseIntSum, hiv]
  cases hw : wsDrop r with
  | nil => simp [parseIntSumGo, hw]
  | cons c r2 =>
    have hc := hnext c r2 hw
    simp [parseIntSumGo, hw, hc]

lemma parsePair_rel {l : List Char} {k : List Char} {v : Int} {rest : List Char}
    (h : parsePair parseIntLit l = some ((k, v), rest))
    (hnext : ∀ c r2, wsDrop rest = c :: r2 → c ≠ '+') :
    parsePair parseValueEval l = some ((k, PyVal.intV v), rest) := by
  cases hs : parseStrLit l with
  | none => simp [parsePair, hs] at h
  | some p =>
    obtain ⟨k0, r⟩ := p
    simp only [parsePair, hs] at h ⊢
    cases hw : wsDrop r with
    | nil =>
      simp only [hw] at h
      exact absurd h (by simp)
    | cons c r2 =>
      simp only [hw] at h ⊢
      by_cases hc : c = ':'
      · rw [if_pos hc] at h ⊢
        cases hv : parseIntLit (wsDrop r2) with
        | none => rw [hv] at h; exact absurd h (by simp)
        | some q =>
          obtain ⟨v0, rest0⟩ := q
          rw [hv] at h
          simp only [Option.map_some'] at h
          injection h with h
          have hk : k0 = k := congrArg Prod.fst (congrArg Prod.fst h)
          have hv0 : v0 = v := congrArg Prod.snd (congrArg Prod.fst h)
          have hr0 : rest0 = rest := congrArg Prod.snd h
          subst hk
          subst hv0
          subst hr0
          rw [parseValueEval_int hv hnext]
          rfl
      · rw [if_neg hc] at h
        exact absurd h (by simp)

lemma pairsAfter_next {α : Type} {pv : List Char → Option (α × List Char)}
    {fuel : Nat} {acc : List (List Char × α)} {l : List Char}
    {m : List (List Char × α)} (h : pairsAfter pv fuel acc l = some m) :
    ∀ c r2, wsDrop l = c :: r2 → (c = rbrace ∨ c = ',') := by
  intro c r2 hw
  cases fuel with
  | zero => exact absurd h (by simp [pairsAfter])
  | succ fuel =>
    simp only [pairsAfter, hw] at h
    by_cases h1 : c = rbrace
    · exact Or.inl h1
    · by_cases h2 : c = ','
      · exact Or.inr h2
      · rw [if_neg h1, if_neg h2] at h
        exact absurd h (by simp)

lemma pairsAfter_rel : ∀ (fuel : Nat) (acc : List (List Char × Int))
    (l : List Char) (m : List (List Char × Int)),
    pairsAfter parseIntLit fuel acc l = some m →
    pairsAfter parseValueEval fuel (acc.map embedKV) l = some (m.map embedKV) := by
  intro fuel
  induction fuel with
  | zero =>
    intro acc l m h
    exact absurd h (by simp [pairsAfter])
  | succ fuel ih =>
    intro acc l m h
    cases hw : wsDrop l with
    | nil => simp [pairsAfter, hw] at h
    | cons c r =>
      simp only [pairsAfter, hw] at h ⊢
      by_cases hc : c = rbrace
      · rw [if_pos hc] at h ⊢
        by_cases hr : wsDrop r = []
        · rw [if_pos hr] at h ⊢
          injection h with h
          rw [← h, List.map_reverse]
        · rw [if_neg hr] at h
          exact absurd h (by simp)
      · rw [if_neg hc] at h ⊢
        by_cases hc2 : c = ','
        · rw [if_pos hc2] at h ⊢
          cases hw2 : wsDrop r with
          | nil => simp only [hw2] at h; exact absurd h (by simp)
          | cons c2 r2 =>
            simp only [hw2] at h ⊢
            by_cases hc3 : c2 = rbrace
            · rw [if_pos hc3] at h ⊢
              by_cases hr2 : wsDrop r2 = []
              · rw [if_pos hr2] at h ⊢
                injection h with h
                rw [← h, List.map_reverse]
              · rw [if_neg hr2] at h
                exact absurd h (by simp)
            · rw [if_neg hc3] at h ⊢
              cases hp : parsePair parseIntLit (c2 :: r2) with
              | none => simp [hp] at h
              | some pr =>
                obtain ⟨⟨k, v⟩, rest⟩ := pr
                simp only [hp] at h
                have hnext : ∀ c3 r3, wsDrop rest = c3 :: r3 → c3 ≠ '+' := by
                  intro c3 r3 hw3
                  rcases pairsAfter_next h c3 r3 hw3 with h3 | h3 <;>
                    (rw [h3]; decide)
                simp only [parsePair_rel hp hnext]
                exact ih ((k, v) :: acc) rest m h
        · rw [if_neg hc2] at h
          exact absurd h (by simp)

lemma parseDict_rel {l : List Char} {m : List (List Char × Int)}
    (h : parseFlatStrIntLit l = some m) : evalDictRaw l = some (m.map embedKV) := by
  cases l with
  | nil => simp [parseFlatStrIntLit, parseDict] at h
  | cons c r =>
    simp only [parseFlatStrIntLit, parseDict] at h
    simp only [evalDictRaw, parseDict]
    by_cases hc : c = lbrace
    · rw [if_pos hc] at h ⊢
      cases hw : wsDrop r with
      | nil => simp only [hw] at h; exact absurd h (by simp)
      | cons c2 r2 =>
        simp only [hw] at h ⊢
        by_cases hc2 : c2 = rbrace
        · rw [if_pos hc2] at h ⊢
          by_cases hr2 : wsDrop r2 = []
          · rw [if_pos hr2] at h ⊢
            injection h with h
            rw [← h]
            rfl
          · rw [if_neg hr2] at h
            exact absurd h (by simp)
        · rw [if_neg hc2] at h ⊢
          cases hp : parsePair parseIntLit (c2 :: r2) with
          | none => simp [hp] at h
          | some pr =>
            obtain ⟨⟨k, v⟩, rest⟩ := pr
            simp only [hp] at h
            have hnext : ∀ c3 r3, wsDrop rest = c3 :: r3 → c3 ≠ '+' := by
              intro c3 r3 hw3
              rcases pairsAfter_next h c3 r3 hw3 with h3 | h3 <;>
                (rw [h3]; decide)
            simp only [parsePair_rel hp hnext]
            exact pairsAfter_rel (rest.length + 1) [(k, v)] rest m h
    · rw [if_neg hc] at h
      exact absurd h (by simp)

end ResumeFit

namespace ResumeFit

lemma foldl_upsert_nodup : ∀ (l acc : List (List Char × PyVal)),
    ((acc ++ l).map Prod.fst).Nodup →
    List.foldl (fun m p => upsert m p.1 p.2) acc l = acc ++ l := by
  intro l
  induction l with
  | nil =>
    intro acc _
    simp
  | cons p l ih =>
    intro acc hnd
    obtain ⟨k, v⟩ := p
    have hk : acc.any (fun q => q.1 == k) = false := by
      rw [List.any_eq_false]
      intro q hq hbeq
      have hqk : q.1 = k := by simpa using hbeq
      rw [List.map_append, List.nodup_append] at hnd
      have hdisj := hnd.2.2
      have h1 : k ∈ acc.map Prod.fst := List.mem_map.mpr ⟨q, hq, hqk⟩
      have h2 : k ∈ ((k, v) :: l).map Prod.fst := by
        rw [List.map_cons]
        exact List.mem_cons_self _ _
      exact hdisj h1 h2
    have hstep : upsert acc k v = acc ++ [(k, v)] := by
      unfold upsert
      rw [if_neg (by rw [hk]; exact Bool.false_ne_true)]
    rw [List.foldl_cons]
    show List.foldl (fun m p => upsert m p.1 p.2) (upsert acc k v) l = acc ++ (k, v) :: l
    rw [hstep,
      ih (acc ++ [(k, v)]) (by rw [List.append_assoc, List.singleton_append]; exact hnd),
      List.append_assoc, List.singleton_append]

lemma dedupKeys_of_nodup {l : List (List Char × PyVal)}
    (h : (l.map Prod.fst).Nodup) : dedupKeys l = l := by
  have := foldl_upsert_nodup l [] (by simpa using h)
  simpa [dedupKeys] using this

end ResumeFit

namespace ResumeFit

/-- C3 as amended: when the regex captures a payload that is a
syntactically valid flat string-to-integer mapping literal with distinct
keys (integer literals in Python 3 syntax, so without leading zeros), the
extraction returns a mapping with exactly the same keys in the same order
and the same values; when the captured payload is fragment-shaped but an
integer literal in it carries leading zeros, evaluation fails with a
Python SyntaxError, and the result is the malformed outcome, surfaced as a
non-fatal warning rather than a crash.  Payloads that evaluate despite not
being flat literals are accepted silently (see the counterexample), and
payloads outside the modelled fragment are left unmodelled. -/
theorem skills_literal_amended (text payload : List Char)
    (hcap : skillsCapture text = some payload) :
    (∀ m, parseFlatStrIntLit payload = some m → (m.map Prod.fst).Nodup →
      extract_skill_score_map text =
        SkillsResult.ok (m.map (fun p => (p.1, PyVal.intV p.2)))) ∧
    (syntaxErrorPayload payload →
      extract_skill_score_map text = SkillsResult.malformed) := by
  constructor
  · intro m hm hnd
    have hrel := parseDict_rel hm
    have hmapkeys : ((m.map embedKV).map Prod.fst) = m.map Prod.fst := by
      rw [List.map_map]
      rfl
    have hded : dedupKeys (m.map embedKV) = m.map embedKV :=
      dedupKeys_of_nodup (by rw [hmapkeys]; exact hnd)
    simp only [extract_skill_score_map, hcap, evalDict, hrel, Option.map_some', hded]
    rfl
  · intro hse
    obtain ⟨hstrict, hloose⟩ := hse
    simp only [extract_skill_score_map, hcap, evalDict, hstrict, Option.map_none',
      hloose, if_true]

/-- Witness for the amended C3: a well-formed two-skill literal produces
the mapping in order, and a fragment-shaped payload with the leading-zero
literal 007 produces the malformed outcome. -/
theorem skills_literal_amended_witness :
    extract_skill_score_map skillsDemoText =
      SkillsResult.ok [(['p'], PyVal.intV 80), (['q'], PyVal.intV 60)] ∧
    extract_skill_score_map skillsZeroText = SkillsResult.malformed := by
  constructor
  · exact (skills_literal_amended skillsDemoText skillsDemoPayload (by decide)).1
      [(['p'], 80), (['q'], 60)] (by decide) (by decide)
  · exact (skills_literal_amended skillsZeroText skillsZeroPayload (by decide)).2
      (by decide)

/-- C3 counterexample: the payload with value expression 1+1 is not a
syntactically valid flat string-to-number mapping literal, yet the
extraction does not produce the malformed outcome: the evaluator computes
the sum and a skills map is returned silently. -/
theorem skills_malformed_counterexample :
    skillsCapture plusText = some plusPayload ∧
    parseFlatStrIntLit plusPayload = none ∧
    extract_skill_score_map plusText = SkillsResult.ok [(['a'], PyVal.intV 2)] := by
  refine ⟨by decide, by decide, by decide⟩

/-- C2: the captured skills payload reaches the evaluator unrestricted: an
arbitrary Python expression is captured by the regex and handed over, while
the safe flat-literal parse mandated by the claim rejects it; nothing in
the code confines the payload to literal structure before evaluation. -/
theorem skills_payload_reaches_unsafe_evaluator :
    skillsCapture importText = some importPayload ∧
    parseFlatStrIntLit importPayload = none ∧
    evalDictRaw importPayload = none := by
  refine ⟨by decide, by decide, by decide⟩

end ResumeFit

namespace ResumeFit

/-- C9: the full-report renderer and the cover-letter renderer implement
identical pagination rules: on every input text they produce equal
documents, each a pure function of its own input text. -/
theorem report_and_cover_letter_renderers_agree :
    ∀ text : List Char, generate_pdf_report text = generate_cover_letter_pdf text :=
  fun _ => rfl

/-- C8: the radar chart renderer returns absent on an empty skill map, and
on every map for which it produces a chart, that chart has at least one
axis; a zero-axis chart is never produced. -/
theorem radar_chart_empty_and_axes :
    create_radar_chart [] = none ∧
    ∀ (m : List (List Char × PyVal)) (c : RadarChart),
      create_radar_chart m = some c → 0 < c.axes.length := by
  constructor
  · rfl
  · intro m c h
    unfold create_radar_chart at h
    by_cases hm : m.length = 0
    · rw [if_pos hm] at h
      exact absurd h (by simp)
    · rw [if_neg hm] at h
      injection h with h
      rw [← h]
      simp only [List.length_map]
      omega

/-- Witness for C8 at a concrete one-skill map. -/
theorem radar_chart_axes_witness :
    0 < (RadarChart.mk [['P', 'y']] [PyVal.intV 80, PyVal.intV 80]).axes.length :=
  radar_chart_empty_and_axes.2 [(['P', 'y'], PyVal.intV 80)]
    (RadarChart.mk [['P', 'y']] [PyVal.intV 80, PyVal.intV 80]) (by decide)

/-- C7 counterexample: an analysis text consisting of a euro sign contains
no percent sign, yet the full report is not generated, because the
character lies outside the document encoding; so the claim that the report
is always still generated fails without an encoding proviso. -/
theorem pipeline_report_encoding_counterexample :
    '%' ∉ [euroChar] ∧ ([euroChar] : List Char) ≠ [] ∧
      (runPipeline [euroChar]).reportPdf = none := by
  refine ⟨by decide, by decide, by decide⟩

/-- C7 as amended: for every nonempty analysis text with no percent sign
and only characters inside the document encoding, the pipeline yields an
absent match score, skips the bar chart, surfaces the warning, and still
generates the full report from the entire analysis text, while the skills
and cover-letter outputs are computed independently exactly as their
standalone extractions dictate. -/
theorem pipeline_missing_score_amended (analysis : List Char)
    (hne : analysis ≠ [])
    (hnp : '%' ∉ analysis)
    (henc : analysis.all latin1Ok = true) :
    (runPipeline analysis).matchScore = none ∧
    (runPipeline analysis).barChart = none ∧
    (runPipeline analysis).scoreWarning = true ∧
    (runPipeline analysis).reportPdf = some (splitNl analysis) ∧
    (runPipeline analysis).skills = extract_skill_score_map analysis ∧
    (runPipeline analysis).coverLetterPdf =
      (extract_cover_letter analysis).bind (fun t => generate_cover_letter_pdf t) := by
  have hnone : extract_match_percentage analysis = none := by
    unfold extract_match_percentage
    rw [findPercent_none analysis (no_pct_no_match hnp)]
    rfl
  refine ⟨?_, ?_, ?_, ?_, rfl, rfl⟩
  · show extract_match_percentage analysis = none
    exact hnone
  · show (extract_match_percentage analysis).map create_bar_chart = none
    rw [hnone]
    rfl
  · show (extract_match_percentage analysis).isNone = true
    rw [hnone]
    rfl
  · show generate_pdf_report analysis = some (splitNl analysis)
    unfold generate_pdf_report
    rw [if_pos henc]

/-- Witness for the amended C7 at a concrete two-line analysis text. -/
theorem pipeline_missing_score_amended_witness :
    (runPipeline ("hello\nworld".toList)).matchScore = none ∧
    (runPipeline ("hello\nworld".toList)).barChart = none ∧
    (runPipeline ("hello\nworld".toList)).scoreWarning = true ∧
    (runPipeline ("hello\nworld".toList)).reportPdf =
      some (splitNl ("hello\nworld".toList)) ∧
    (runPipeline ("hello\nworld".toList)).skills =
      extract_skill_score_map ("hello\nworld".toList) ∧
    (runPipeline ("hello\nworld".toList)).coverLetterPdf =
      (extract_cover_letter ("hello\nworld".toList)).bind
        (fun t => generate_cover_letter_pdf t) :=
  pipeline_missing_score_amended ("hello\nworld".toList) (by decide) (by decide)
    (by decide)

end ResumeFit
